import Mathlib

/-!
Shallow embedding of the chord-pad voicing/performance engine.

Sources embedded:
* `src/lib/voicing.ts` (second, extended revision: omission flags, four drop
  variants, single-pitch fallback) — pitch-class utilities, chord-symbol
  parsing, voicing builders, roman-numeral analyzer.
* `src/unnamed/part_001` — the performance/event scheduler `buildNoteEvents`.
* `src/unnamed/part_000` — the Hold (pad press) state machine
  `startHoldByIndex` / `stopHoldByIndex`.

External capabilities (the `tonal` chord-theory lookup `Chord.get` and the
`tone` pitch/name conversions `Tone.Frequency(...).toMidi` /
`Tone.Frequency(m, "midi").toNote()`) are not part of this repository; per the
specification they are black-box interfaces, so they are modelled as an
explicit environment parameter `Env` and theorems quantify over it.
JavaScript numbers are modelled as `ℤ` where the code only produces integers
(all midi arithmetic) and as `ℚ` in the scheduler; `Math.random()` is
modelled as an explicit stream of rationals in `[0,1)`.
-/

namespace ChordPad

/-- JavaScript `String.prototype.toLowerCase`, restricted to the character
repertoire occurring in chord symbols, roman numerals and quality strings
(ASCII letters, Greek capital delta, Ø); every other character that can occur
there is fixed by Unicode lowercasing. -/
def jsToLower (c : Char) : Char :=
  if 'A' ≤ c ∧ c ≤ 'Z' then Char.ofNat (c.toNat + 32)
  else if c = 'Δ' then 'δ'
  else if c = 'Ø' then 'ø'
  else c

/-- JavaScript `String.prototype.toUpperCase` on the same repertoire. -/
def jsToUpper (c : Char) : Char :=
  if 'a' ≤ c ∧ c ≤ 'z' then Char.ofNat (c.toNat - 32)
  else if c = 'δ' then 'Δ'
  else if c = 'ø' then 'Ø'
  else c

/-- JavaScript `\s` / `trim` whitespace (the ASCII part actually reachable
from chord-symbol input). -/
def jsIsSpace (c : Char) : Bool :=
  c = ' ' || c = '\t' || c = '\n' || c = '\r' ||
  c = Char.ofNat 11 || c = Char.ofNat 12

/-- JavaScript `String.prototype.trim` on a character list. -/
def jsTrim (l : List Char) : List Char :=
  ((l.dropWhile jsIsSpace).reverse.dropWhile jsIsSpace).reverse

/-- JavaScript `String.prototype.replace(pat, rep)` with a single-character
string pattern: replaces only the first occurrence. -/
def replaceFirst : List Char → Char → Char → List Char
  | [], _, _ => []
  | c :: cs, pat, rep => if c = pat then rep :: cs else c :: replaceFirst cs pat rep

/-- Is `p` a prefix of the second list? (helper for `containsSub`). -/
def isPrefixL : List Char → List Char → Bool
  | [], _ => true
  | _ :: _, [] => false
  | p :: ps, h :: hs => p = h && isPrefixL ps hs

/-- JavaScript `String.prototype.includes`: substring containment. -/
def containsSub : List Char → List Char → Bool
  | [], pat => pat.isEmpty
  | c :: t, pat => isPrefixL pat (c :: t) || containsSub t pat

/-- JavaScript `%` on integers: remainder whose sign follows the dividend. -/
def jsMod (a b : ℤ) : ℤ :=
  if a < 0 then -((-a) % b) else a % b

/-- `LETTER_BASE[letter] ?? 0` from voicing.ts. -/
def letterBase (c : Char) : ℤ :=
  if c = 'C' then 0
  else if c = 'D' then 2
  else if c = 'E' then 4
  else if c = 'F' then 5
  else if c = 'G' then 7
  else if c = 'A' then 9
  else if c = 'B' then 11
  else 0

/-- `normalizePc` from voicing.ts: trim, fold the fullwidth accidentals to
ASCII (first occurrence each, as JS `replace` with a string pattern does),
uppercase the first character. -/
def normalizePcL (l : List Char) : List Char :=
  let s := replaceFirst (replaceFirst (jsTrim l) '♭' 'b') '♯' '#'
  match s with
  | [] => []
  | c :: cs => jsToUpper c :: cs

/-- `pcToSemitone` from voicing.ts. -/
def pcToSemitone (pc : String) : ℤ :=
  let s := normalizePcL pc.data
  let base := match s with | [] => (0 : ℤ) | c :: _ => letterBase c
  let acc := match s with | [] => ([] : List Char) | _ :: cs => cs
  let delta := acc.foldl (fun d ch => if ch = '#' then d + 1 else if ch = 'b' then d - 1 else d) (0 : ℤ)
  let v := jsMod (base + delta) 12
  if v < 0 then v + 12 else v

/-- `signedSemitoneDiff` from voicing.ts. -/
def signedSemitoneDiff (fromPc toPc : String) : ℤ :=
  let a := pcToSemitone fromPc
  let b := pcToSemitone toPc
  let d := jsMod (b - a + 12) 12
  jsMod (d + 6) 12 - 6

/-- Result of the external chord-theory lookup (`Chord.get` from tonal):
a tonic pitch class, the ordered constituent pitch classes, and a quality
string. A lookup outcome with no usable tonic (JS `!c?.tonic`, i.e. a missing
or empty tonic) is modelled as `none`. -/
structure TonalChord where
  tonic : String
  notes : List String
  quality : String

/-- The external capabilities consumed by voicing.ts: the chord-theory lookup
and the two `tone` pitch conversions. `midiFrom pc oct` stands for
`Tone.Frequency(pc + oct).toMidi()`, `toNote m` for
`Tone.Frequency(m, "midi").toNote()`. Theorems quantify over this
environment. -/
structure Env where
  chordGet : String → Option TonalChord
  midiFrom : String → ℤ → ℤ
  toNote : ℤ → String

inductive Quality
  | major
  | minor
  | diminished
  | augmented
deriving DecidableEq, Repr

structure Parsed where
  core : String
  slashBass : Option String
  tonic : String
  notes : List String
  qualityGuess : Quality
deriving DecidableEq, Repr

/-- The tail of the slash-bass regex `\s*\/\s*([A-Ga-g][b#]?)$`: matched
against the part of the input after the candidate core, returning the bass
capture. -/
def slashTail (rest : List Char) : Option (List Char) :=
  match rest.dropWhile jsIsSpace with
  | '/' :: r2 =>
    (match r2.dropWhile jsIsSpace with
     | [] => none
     | c :: rest2 =>
       if ('A' ≤ c ∧ c ≤ 'G') ∨ ('a' ≤ c ∧ c ≤ 'g') then
         match rest2 with
         | [] => some [c]
         | [a] => if a = 'b' ∨ a = '#' then some [c, a] else none
         | _ => none
       else none)
  | _ => none

/-- The lazy group `(.+?)` of the slash regex: try the shortest non-empty
core whose remainder matches `slashTail`; `.` does not match line
terminators. -/
def splitGo (pre : List Char) : List Char → Option (List Char × List Char)
  | [] => none
  | c :: rs =>
    if c = '\n' ∨ c = '\r' then none
    else
      match slashTail rs with
      | some bass => some (pre ++ [c], bass)
      | none => splitGo (pre ++ [c]) rs

/-- `splitSlash` from voicing.ts: split `"F/G"` into core `"F"` and
normalized slash bass `"G"`; inputs not matching the regex keep the whole
trimmed string as core. -/
def splitSlash (input : String) : String × Option String :=
  let t := jsTrim input.data
  match splitGo [] t with
  | some (core, bass) => (String.mk (jsTrim core), some (String.mk (normalizePcL bass)))
  | none => (String.mk t, none)

/-- `guessQuality` from voicing.ts. -/
def guessQuality (symbol : List Char) (tonalQuality : String) : Quality :=
  let s := symbol.map jsToLower
  if containsSub s "dim".data || containsSub s "o".data ||
     containsSub s "m7b5".data || containsSub s "ø".data then Quality.diminished
  else if containsSub s "aug".data || containsSub s "+".data then Quality.augmented
  else
    let q := tonalQuality.data.map jsToLower
    if containsSub q "minor".data then Quality.minor
    else if containsSub q "major".data then Quality.major
    else if containsSub s "m".data && !containsSub s "maj".data then Quality.minor
    else Quality.major

/-- `parseChordSymbol` from voicing.ts. -/
def parseChordSymbol (env : Env) (input : String) : Option Parsed :=
  let cs := splitSlash input
  match env.chordGet cs.1 with
  | none => none
  | some c =>
    some {
      core := cs.1
      slashBass := cs.2
      tonic := String.mk (normalizePcL c.tonic.data)
      notes := c.notes.map (fun n => String.mk (normalizePcL n.data))
      qualityGuess := guessQuality cs.1.data c.quality }

/-- `toneAt`: `p.notes[idx] ?? null`. -/
def toneAt (p : Parsed) (idx : ℕ) : Option String := p.notes.get? idx

def rootPc (p : Parsed) : String := p.tonic

def thirdPc (p : Parsed) : Option String := toneAt p 1

def fifthPc (p : Parsed) : Option String := toneAt p 2

def seventhPc (p : Parsed) : Option String := toneAt p 3

def ninthPc (p : Parsed) : Option String := toneAt p 4

def thirteenthPc (p : Parsed) : Option String := toneAt p 6

/-- `nearestAbove` from voicing.ts: start at `midiFrom(pc, anchorOct)` and
add octaves while below `minMidi`. The while loop adds 12 exactly `k` times
where `k` is the least count with `m + 12 * k ≥ minMidi`. -/
def nearestAbove (env : Env) (pc : String) (minMidi : ℤ) (anchorOct : ℤ) : ℤ :=
  let m := env.midiFrom pc anchorOct
  let k : ℕ := ((minMidi - m).toNat + 11) / 12
  m + 12 * (k : ℤ)

/-- JS `array.sort((a, b) => a - b)` on integers: the ascending reordering.
On integer lists the sorted permutation is unique, so the choice of sorting
algorithm is immaterial. -/
def jsSortInts (l : List ℤ) : List ℤ := l.insertionSort (· ≤ ·)

/-- `Math.min(...xs)` for a list; the 0 default is never consulted at call
sites (all call sites pass non-empty lists). -/
def minOf : List ℤ → ℤ
  | [] => 0
  | a :: t => t.foldl min a

/-- `Math.max(...xs)` for a list (same remark as `minOf`). -/
def maxOf : List ℤ → ℤ
  | [] => 0
  | a :: t => t.foldl max a

/-- `clampLowMud` from voicing.ts. `delta` is
`12 * Math.ceil((minTop - topMin) / 12)`; in the branch where it is
evaluated `minTop - topMin ≥ 1`, and for `g ≥ 1` the integer form
`(g + 11) / 12` equals `⌈g / 12⌉`. The `.map` over the sorted list raises
every element except index 0. -/
def clampLowMud (midis : List ℤ) (minTop : ℤ) : List ℤ :=
  if midis.length < 2 then midis
  else
    let sorted := jsSortInts midis
    let top3 := sorted.drop (sorted.length - 3)
    let topMin := minOf top3
    if minTop ≤ topMin then sorted
    else
      let delta := 12 * ((minTop - topMin + 11) / 12)
      match sorted with
      | [] => []
      | b :: rest => b :: rest.map (· + delta)

/-- `applyShift` from voicing.ts; for an integer shift, JS `!shift` is
`shift === 0`. -/
def applyShift (midis : List ℤ) (shift : ℤ) : List ℤ :=
  if shift = 0 then midis else midis.map (· + shift)

/-- The shared placement loop of voicing.ts
(`m = nearestAbove(pc, min + 1, oct); placed.push(m); min = m + 1`). -/
def placeLoop (env : Env) (anchorOct : ℤ) : ℤ → List String → List ℤ
  | _, [] => []
  | mn, pc :: rest =>
    let m := nearestAbove env pc (mn + 1) anchorOct
    m :: placeLoop env anchorOct (m + 1) rest

/-- `buildClosedFromPcs` from voicing.ts. -/
def buildClosedFromPcs (env : Env) (anchorPc : String) (pcs : List String) (centerOctave : ℤ) : List ℤ :=
  if pcs.isEmpty then []
  else
    let baseOct := max 1 (centerOctave - 1)
    placeLoop env baseOct (env.midiFrom anchorPc baseOct - 1) pcs

inductive DropKind
  | drop2
  | drop3
  | drop24
  | drop4
deriving DecidableEq

/-- `applyDrop` from voicing.ts: drops are defined only for exactly four
voices; otherwise the stack is returned unchanged. -/
def applyDrop (closed : List ℤ) (kind : DropKind) : List ℤ :=
  match closed with
  | [v1, v2, v3, v4] =>
    (match kind with
     | DropKind.drop2 => jsSortInts [v1, v2, v3 - 12, v4]
     | DropKind.drop3 => jsSortInts [v1, v2 - 12, v3, v4]
     | DropKind.drop4 => jsSortInts [v1 - 12, v2, v3, v4]
     | DropKind.drop24 => jsSortInts [v1 - 12, v2, v3 - 12, v4])
  | _ => closed

/-- Per-voice omission flags; a JS `undefined` flag behaves as `false`. -/
structure OmitFlags where
  root : Bool
  third : Bool
  fifth : Bool
  seventh : Bool
deriving DecidableEq, Repr

/-- `VoicingOptions`; the source field `omit` is a Lean keyword, so it is
called `omitF` here. -/
structure VoicingOptions where
  omitF : Option OmitFlags
deriving DecidableEq, Repr

/-- `omitOk` from voicing.ts (field access passed as a projection). -/
def omitOk (get : OmitFlags → Bool) (omitF : Option OmitFlags) : Bool :=
  match omitF with
  | none => true
  | some o => !(get o)

inductive PadVoicingPreset
  | PAD_TRIAD_BASS_35R
  | DROP2_1357_NO_BASS
  | DROP3_1357_NO_BASS
  | DROP24_1357_NO_BASS
  | DROP4_1357_NO_BASS
  | SHELL_R37_NO_BASS
  | GUIDE_379_NO_BASS
  | ROOTLESS_37_9_NO_BASS
deriving DecidableEq, Repr

structure VoicingResult where
  chordSymbol : String
  preset : PadVoicingPreset
  midis : List ℤ
  notes : List String
deriving DecidableEq, Repr

/-- The four `pcs.push` lines shared verbatim by the DROP* branches of
`buildPadVoicing`. -/
def dropPcs (p : Parsed) (omitF : Option OmitFlags) : List String :=
  (if omitOk (·.root) omitF then [rootPc p] else []) ++
  (if omitOk (·.third) omitF then [(thirdPc p).getD (rootPc p)] else []) ++
  (if omitOk (·.fifth) omitF then [(fifthPc p).getD (rootPc p)] else []) ++
  (if omitOk (·.seventh) omitF then [(seventhPc p).getD ((fifthPc p).getD (rootPc p))] else [])

/-- The preset dispatch of `buildPadVoicing` (voicing.ts lines 630-760): the
midi list before the single-pitch fallback and the transposition. -/
def presetMidis (env : Env) (p : Parsed) (centerOctave : ℤ) (preset : PadVoicingPreset) (omitF : Option OmitFlags) : List ℤ :=
  let r := rootPc p
  let t3 := thirdPc p
  let t5 := fifthPc p
  let t7 := seventhPc p
  let t9 := ninthPc p
  let t13 := thirteenthPc p
  let bassPc := p.slashBass.getD r
  match preset with
  | PadVoicingPreset.PAD_TRIAD_BASS_35R =>
    let bassOct := max 1 (centerOctave - 2)
    let bass := env.midiFrom bassPc bassOct
    let omitRoot := match omitF with | none => false | some o => o.root
    let tmp0 := if !(omitRoot && (bassPc == r)) then [bass] else []
    let cursor0 := match tmp0.getLast? with | some x => x + 2 | none => bass - 6
    let s1 := if omitOk (·.third) omitF then
        (let m3 := nearestAbove env (t3.getD r) cursor0 (centerOctave - 1)
         (tmp0 ++ [m3], m3 + 2))
      else (tmp0, cursor0)
    let s2 := if omitOk (·.fifth) omitF then
        (let m5 := nearestAbove env (t5.getD r) s1.2 (centerOctave - 1)
         (s1.1 ++ [m5], m5 + 2))
      else s1
    let tmp3 := if omitOk (·.root) omitF then s2.1 ++ [nearestAbove env r s2.2 centerOctave] else s2.1
    clampLowMud tmp3 55
  | PadVoicingPreset.DROP2_1357_NO_BASS =>
    clampLowMud (applyDrop (buildClosedFromPcs env r (dropPcs p omitF) centerOctave) DropKind.drop2) 58
  | PadVoicingPreset.DROP3_1357_NO_BASS =>
    clampLowMud (applyDrop (buildClosedFromPcs env r (dropPcs p omitF) centerOctave) DropKind.drop3) 58
  | PadVoicingPreset.DROP24_1357_NO_BASS =>
    clampLowMud (applyDrop (buildClosedFromPcs env r (dropPcs p omitF) centerOctave) DropKind.drop24) 58
  | PadVoicingPreset.DROP4_1357_NO_BASS =>
    clampLowMud (applyDrop (buildClosedFromPcs env r (dropPcs p omitF) centerOctave) DropKind.drop4) 58
  | PadVoicingPreset.SHELL_R37_NO_BASS =>
    let pcs := (if omitOk (·.root) omitF then [r] else []) ++
      (if omitOk (·.third) omitF then [t3.getD r] else []) ++
      (if omitOk (·.seventh) omitF then [t7.getD (t5.getD r)] else []) ++
      [t9.getD (t5.getD r)]
    clampLowMud (placeLoop env centerOctave (env.midiFrom r (max 1 (centerOctave - 1)) - 1) pcs) 60
  | PadVoicingPreset.GUIDE_379_NO_BASS =>
    let pcs := (if omitOk (·.third) omitF then [t3.getD r] else []) ++
      (if omitOk (·.seventh) omitF then [t7.getD (t5.getD r)] else []) ++
      [t9.getD (t5.getD r)] ++
      (if omitOk (·.root) omitF then [r] else [])
    clampLowMud (placeLoop env centerOctave (env.midiFrom r (max 1 (centerOctave - 1)) - 1) pcs) 60
  | PadVoicingPreset.ROOTLESS_37_9_NO_BASS =>
    let pcs := (if omitOk (·.third) omitF then [t3.getD r] else []) ++
      (if omitOk (·.seventh) omitF then [t7.getD (t5.getD r)] else []) ++
      [t9.getD (t5.getD r)] ++
      [t13.getD (t5.getD r)]
    clampLowMud (placeLoop env centerOctave (env.midiFrom r (max 1 (centerOctave - 1)) - 1) pcs) 62

/-- The preset midis followed by the single-pitch fallback
(`if (!midis.length) midis = [midiFrom(slashBass ?? r, max(1, centerOctave - 1))]`). -/
def rawMidis (env : Env) (p : Parsed) (centerOctave : ℤ) (preset : PadVoicingPreset) (omitF : Option OmitFlags) : List ℤ :=
  let m := presetMidis env p centerOctave preset omitF
  if m.length = 0 then [env.midiFrom (p.slashBass.getD p.tonic) (max 1 (centerOctave - 1))] else m

/-- `buildPadVoicing` from voicing.ts. -/
def buildPadVoicing (env : Env) (chordSymbol : String) (centerOctave : ℤ) (preset : PadVoicingPreset) (transposeShift : ℤ) (opts : VoicingOptions) : Option VoicingResult :=
  match parseChordSymbol env chordSymbol with
  | none => none
  | some p =>
    let midis := applyShift (rawMidis env p centerOctave preset opts.omitF) transposeShift
    some { chordSymbol := chordSymbol, preset := preset, midis := midis, notes := midis.map env.toNote }

inductive Mode
  | major
  | minor
deriving DecidableEq, Repr

structure KeySig where
  tonic : String
  mode : Mode

def degreeIntervals (mode : Mode) : List ℤ :=
  match mode with
  | Mode.major => [0, 2, 4, 5, 7, 9, 11]
  | Mode.minor => [0, 2, 3, 5, 7, 8, 10]

def accidentalPrefix (delta : ℤ) : String :=
  if delta = -2 then "bb"
  else if delta = -1 then "b"
  else if delta = 1 then "#"
  else if delta = 2 then "##"
  else ""

/-- `isSeventhChord`: `/7/.test(symbol.toLowerCase())`. -/
def isSeventhChord (symbol : String) : Bool :=
  (symbol.data.map jsToLower).contains '7'

/-- `isMaj7` from voicing.ts, embedded literally: the third test looks for
the substring `"Δ7"` (capital delta) inside the already lowercased symbol. -/
def isMaj7 (symbol : String) : Bool :=
  let s := symbol.data.map jsToLower
  containsSub s "maj7".data || containsSub s "ma7".data || containsSub s "Δ7".data

/-- `qualityToRomanCase` from voicing.ts. -/
def qualityToRomanCase (q : Quality) (base : String) (symbol : String) : String :=
  let s := symbol.data.map jsToLower
  let isHalfDim := containsSub s "m7b5".data || containsSub s "ø".data
  let isDim := (q == Quality.diminished) || containsSub s "dim".data || containsSub s "o".data
  let isAug := (q == Quality.augmented) || containsSub s "+".data || containsSub s "aug".data
  if isHalfDim then String.mk (base.data.map jsToLower) ++ "ø"
  else if isDim then String.mk (base.data.map jsToLower) ++ "°"
  else if isAug then String.mk (base.data.map jsToUpper) ++ "+"
  else if q == Quality.minor then String.mk (base.data.map jsToLower)
  else String.mk (base.data.map jsToUpper)

def DEGREE_ROMAN : List String := ["I", "II", "III", "IV", "V", "VI", "VII"]

/-- The best-degree for loop of `romanizeChord`: state is
(bestIdx, bestDelta, bestScore), updated on strict improvement. -/
def bestLoop (diff : ℤ) : List (ℕ × ℤ) → ℕ × ℤ × ℤ → ℕ × ℤ × ℤ
  | [], st => st
  | (i, base) :: rest, st =>
    let ds := jsMod (diff - base + 6) 12 - 6
    let score := if ds < 0 then -ds else ds
    bestLoop diff rest (if score < st.2.2 then (i, ds, score) else st)

/-- `romanizeChord` from voicing.ts. -/
def romanizeChord (env : Env) (chordSymbol : String) (key : KeySig) : String :=
  match parseChordSymbol env chordSymbol with
  | none => ""
  | some p =>
    let keySemi := pcToSemitone key.tonic
    let chordSemi := pcToSemitone p.tonic
    let diff := jsMod (chordSemi - keySemi + 12) 12
    let baseInts := degreeIntervals key.mode
    let best := bestLoop diff baseInts.enum (0, 0, 999)
    let clipped := max (-2) (min 2 best.2.1)
    let acc := accidentalPrefix clipped
    let baseRoman := (DEGREE_ROMAN.get? best.1).getD ""
    let romanWithQuality := qualityToRomanCase p.qualityGuess baseRoman p.core
    let ext := if isMaj7 p.core then "Δ7" else if isSeventhChord p.core then "7" else ""
    acc ++ romanWithQuality ++ ext

inductive StrumDirection
  | up
  | down
  | random
deriving DecidableEq, Repr

inductive PlayMode
  | chord
  | arp
deriving DecidableEq, Repr

/-- Arp patterns; the string `"1357"` becomes the constructor `p1357`. -/
inductive ArpPattern
  | up
  | down
  | random
  | p1357
deriving DecidableEq, Repr

/-- `PerformanceSettings` from part_001; JS numbers modelled as `ℚ`. -/
structure PerformanceSettings where
  strumMs : ℚ
  direction : StrumDirection
  playMode : PlayMode
  arpPattern : ArpPattern
  arpStepMs : ℚ
  arpGate : ℚ
  timingJitterMs : ℚ
  velocityHumanize : ℚ
  baseVelocity : ℚ
  topBoost : ℚ
deriving DecidableEq, Repr

structure NoteEvent where
  note : String
  midi : ℤ
  isTop : Bool
  delayMs : ℚ
  velocity : ℚ
  durSec : ℚ
deriving DecidableEq, Repr

structure Item where
  note : String
  midi : ℤ
  isTop : Bool
  idx : ℕ
deriving DecidableEq, Repr

def clamp (x lo hi : ℚ) : ℚ := max lo (min hi x)

def clamp01 (x : ℚ) : ℚ := clamp x 0 1

/-- `Math.random()` modelled as a stream of rationals: `gen k` is the value
of the `k`-th call (real `Math.random` always returns a value in `[0,1)`).
The counter `k` is threaded through every consumer. -/
structure RandGen where
  gen : ℕ → ℚ
  k : ℕ

def nextRand (s : RandGen) : ℚ × RandGen := (s.gen s.k, { s with k := s.k + 1 })

/-- `randBetween` from part_001. -/
def randBetween (mn mx : ℚ) (s : RandGen) : ℚ × RandGen :=
  let r := nextRand s
  (mn + r.1 * (mx - mn), r.2)

/-- One JS array swap `[arr[i], arr[j]] = [arr[j], arr[i]]`; indices are in
bounds at every call site (`j ≤ i < length`), the fallback arm keeps the
list unchanged. -/
def swapAt (l : List Item) (i j : ℕ) : List Item :=
  match l.get? i, l.get? j with
  | some a, some b => (l.set i b).set j a
  | _, _ => l

/-- The Fisher-Yates loop of `shuffleInPlace`
(`for (let i = n - 1; i > 0; i--) { j = Math.floor(random() * (i + 1)); swap }`);
the recursion counter equals the loop variable `i`. -/
def shuffleGo : RandGen → List Item → ℕ → List Item × RandGen
  | s, l, 0 => (l, s)
  | s, l, i + 1 =>
    let r := nextRand s
    let j := (⌊r.1 * ((i : ℚ) + 2)⌋).toNat
    shuffleGo r.2 (swapAt l (i + 1) j) i

def shuffleInPlace (s : RandGen) (l : List Item) : List Item × RandGen :=
  shuffleGo s l (l.length - 1)

/-- JS `[...items].sort((a, b) => a.midi - b.midi)`: a stable ascending sort
by pitch. Insertion sort that inserts each earlier element in front of equal
later ones is stable, matching the JS specification. -/
def sortByMidi (items : List Item) : List Item :=
  items.insertionSort (fun a b => a.midi ≤ b.midi)

/-- `orderForChord` from part_001. -/
def orderForChord (items : List Item) (dir : StrumDirection) (s : RandGen) : List Item × RandGen :=
  let ordered := sortByMidi items
  match dir with
  | StrumDirection.down => (ordered.reverse, s)
  | StrumDirection.random => shuffleInPlace s ordered
  | StrumDirection.up => (ordered, s)

/-- `orderForArp` from part_001: the `"1357"` pattern returns a copy of the
input order; the rest behave like chord ordering. -/
def orderForArp (items : List Item) (pat : ArpPattern) (s : RandGen) : List Item × RandGen :=
  match pat with
  | ArpPattern.p1357 => (items, s)
  | ArpPattern.down => ((sortByMidi items).reverse, s)
  | ArpPattern.random => shuffleInPlace s (sortByMidi items)
  | ArpPattern.up => (sortByMidi items, s)

structure NormalizedPerf where
  strumMs : ℚ
  direction : StrumDirection
  playMode : PlayMode
  arpPattern : ArpPattern
  arpStepMs : ℚ
  arpGate : ℚ
  timingJitterMs : ℚ
  velocityHumanize : ℚ
  baseVelocity : ℚ
  topBoost : ℚ
deriving DecidableEq, Repr

/-- `normalizePerf` from part_001. `Number.isFinite` is always true in the
`ℚ` model, and the `?? default` fallbacks for the enum fields cannot fire
since the fields are non-nullable here. -/
def normalizePerf (perf : PerformanceSettings) : NormalizedPerf :=
  { strumMs := max 0 perf.strumMs
    direction := perf.direction
    playMode := perf.playMode
    arpPattern := perf.arpPattern
    arpStepMs := max 10 perf.arpStepMs
    arpGate := clamp perf.arpGate 0.1 1
    timingJitterMs := max 0 perf.timingJitterMs
    velocityHumanize := max 0 perf.velocityHumanize
    baseVelocity := clamp perf.baseVelocity 0.05 1
    topBoost := clamp perf.topBoost 0 1 }

/-- `notes.map((note, i) => ({note, midi: midis[i], isTop: midis[i] === topMidi, idx: i}))`
from part_001; the caller guarantees the two lists have the same length. -/
def mkItems (top : ℤ) : List String → List ℤ → ℕ → List Item
  | [], _, _ => []
  | _ :: _, [], _ => []
  | nt :: ns, md :: ms, i =>
    { note := nt, midi := md, isTop := md == top, idx := i } :: mkItems top ns ms (i + 1)

/-- The final `playOrder.map((it, idx) => ...)` of `buildNoteEvents`:
per-note delay jitter, velocity humanization and top boost; the random
stream is consumed in source order. -/
def emitEvents (p : NormalizedPerf) (delays : List ℚ) (oneShot arpDur : ℚ) : RandGen → ℕ → List Item → List NoteEvent
  | _, _, [] => []
  | s, idx, it :: rest =>
    let d0 := delays.getD idx 0
    let dj := if 0 < p.timingJitterMs then
        (let r := randBetween (-p.timingJitterMs) p.timingJitterMs s
         (d0 + r.1, r.2))
      else (d0, s)
    let d := max 0 dj.1
    let vh := if 0 < p.velocityHumanize then
        (let r := randBetween (-p.velocityHumanize) p.velocityHumanize dj.2
         (p.baseVelocity * (1 + r.1), r.2))
      else (p.baseVelocity, dj.2)
    let v := if it.isTop ∧ 0 < p.topBoost then vh.1 * (1 + p.topBoost) else vh.1
    { note := it.note, midi := it.midi, isTop := it.isTop, delayMs := d,
      velocity := clamp01 v,
      durSec := if p.playMode == PlayMode.arp then arpDur else oneShot }
      :: emitEvents p delays oneShot arpDur vh.2 (idx + 1) rest

/-- `buildNoteEvents` from part_001. -/
def buildNoteEvents (rng : ℕ → ℚ) (notes : List String) (midis : List ℤ) (perf : PerformanceSettings) (oneShotDurSec : ℚ) : List NoteEvent :=
  if notes.length = 0 ∨ notes.length ≠ midis.length then []
  else
    let p := normalizePerf perf
    let oneShot := clamp oneShotDurSec 0.05 10
    let topMidi := maxOf midis
    let items := mkItems topMidi notes midis 0
    let s0 : RandGen := { gen := rng, k := 0 }
    let po := if p.playMode == PlayMode.arp then orderForArp items p.arpPattern s0
              else orderForChord items p.direction s0
    let n := po.1.length
    let delays := if p.playMode == PlayMode.arp then
        (List.range n).map (fun i : ℕ => (i : ℚ) * p.arpStepMs)
      else
        (let step := if n ≤ 1 then (0 : ℚ) else p.strumMs / ((n : ℚ) - 1)
         (List.range n).map (fun i : ℕ => (i : ℚ) * step))
    let arpStepSec := if p.playMode == PlayMode.arp then p.arpStepMs / 1000 else 0
    let arpDur := min oneShot (max 0.05 (arpStepSec * p.arpGate))
    emitEvents p delays oneShot arpDur po.2 0 po.1

/-- One entry of `padModels` from part_000 (the fields read by
`startHoldByIndex`). -/
structure PadModel where
  ok : Bool
  chord : String
  roman : String
  notes : List String
  midis : List ℤ

/-- `activeHoldRef.current[idx] = { notes: notesToRelease, scheduleIds }`. -/
structure HoldEntry where
  notes : List String
  scheduleIds : List ℕ
deriving DecidableEq, Repr

/-- The mutable state touched by the Hold functions of part_000:
`activeHoldRef` / `holdMidisRef` as index maps, the guide-pad index, the set
of pending `Tone.Transport.scheduleOnce` callbacks (`scheduled`, with
`nextId` the fresh-id counter of the transport), and a log of
`synth.triggerRelease` calls. -/
structure AppState where
  activeHold : ℕ → Option HoldEntry
  holdMidis : ℕ → Option (List ℤ)
  guidePadIdx : Option ℕ
  scheduled : List ℕ
  nextId : ℕ
  releasedLog : List (List String)

/-- `stopHoldByIndex` from part_000: no live Hold means an immediate return;
otherwise clear that Hold's scheduled attacks, release its notes, and drop
its bookkeeping. -/
def stopHoldByIndex (st : AppState) (idx : ℕ) : AppState :=
  match st.activeHold idx with
  | none => st
  | some h =>
    { st with
      scheduled := st.scheduled.filter (fun i => !h.scheduleIds.contains i)
      releasedLog := h.notes :: st.releasedLog
      activeHold := fun j => if j = idx then none else st.activeHold j
      holdMidis := fun j => if j = idx then none else st.holdMidis j }

/-- `startHoldByIndex` from part_000: inert or empty pads and already-held
indices return without touching any state; otherwise one transport callback
is scheduled per note event and the Hold is recorded. The audio-engine calls
(`ensureAudioReady`, `triggerAttack`) and the log line are external effects
outside this state. -/
def startHoldByIndex (st : AppState) (padModels : ℕ → Option PadModel) (perf : PerformanceSettings) (rng : ℕ → ℚ) (idx : ℕ) : AppState :=
  match padModels idx with
  | none => st
  | some p =>
    if !p.ok ∨ p.notes.length = 0 then st
    else
      match st.activeHold idx with
      | some _ => st
      | none =>
        let events := buildNoteEvents rng p.notes p.midis perf 0.9
        let ids := (List.range events.length).map (fun i => st.nextId + i)
        { st with
          guidePadIdx := some idx
          holdMidis := fun j => if j = idx then some p.midis else st.holdMidis j
          scheduled := st.scheduled ++ ids
          nextId := st.nextId + events.length
          activeHold := fun j =>
            if j = idx then some { notes := events.map (fun e => e.note), scheduleIds := ids }
            else st.activeHold j }

/-- A small concrete chord-theory environment used by the witnesses: a
four-entry lookup table (the `CΔ7` entry reflects a lookup that resolves the
`Δ7` spelling of the major-seventh chord, per the interface of spec §6), the
standard midi placement with octave registers 12 semitones apart, and
numeric note names. -/
def sampleEnv : Env :=
  { chordGet := fun s =>
      if s = "C" then some { tonic := "C", notes := ["C", "E", "G"], quality := "Major" }
      else if s = "Cmaj7" then some { tonic := "C", notes := ["C", "E", "G", "B"], quality := "Major" }
      else if s = "CΔ7" then some { tonic := "C", notes := ["C", "E", "G", "B"], quality := "Major" }
      else if s = "Dm7" then some { tonic := "D", notes := ["D", "F", "A", "C"], quality := "Minor" }
      else none
    midiFrom := fun pc oct => 12 * oct + pcToSemitone pc
    toNote := fun m => toString m }

/-- A fixed deterministic random stream for witnesses (every `Math.random()`
call returns 0, a legal value in `[0,1)`). -/
def zeroRng : ℕ → ℚ := fun _ => 0

/-- Concrete performance settings for witnesses: block-chord mode, no strum
span, no humanization. -/
def samplePerf : PerformanceSettings :=
  { strumMs := 0
    direction := StrumDirection.up
    playMode := PlayMode.chord
    arpPattern := ArpPattern.up
    arpStepMs := 90
    arpGate := 0.85
    timingJitterMs := 0
    velocityHumanize := 0
    baseVelocity := 0.8
    topBoost := 0 }

/-- `samplePerf` switched to arpeggio mode with the `"1357"` pattern. -/
def samplePerfArp : PerformanceSettings :=
  { samplePerf with playMode := PlayMode.arp, arpPattern := ArpPattern.p1357 }

/-- A Hold state with a live Hold at index 0 and nothing at index 1. -/
def holdState0 : AppState :=
  { activeHold := fun j => if j = 0 then some { notes := ["C4"], scheduleIds := [3, 4] } else none
    holdMidis := fun j => if j = 0 then some [60] else none
    guidePadIdx := some 0
    scheduled := [3, 4]
    nextId := 5
    releasedLog := [] }

/-- Pad models for the Hold witnesses: a playable pad at index 0. -/
def padModels0 : ℕ → Option PadModel := fun j =>
  if j = 0 then
    some { ok := true, chord := "C", roman := "I", notes := ["C4", "E4", "G4"], midis := [60, 64, 67] }
  else none

theorem jsMod_bounds (a : ℤ) : -12 < jsMod a 12 ∧ jsMod a 12 < 12 := by
  unfold jsMod
  split <;> constructor <;> omega

theorem wrap_jsMod_bounds (x : ℤ) :
    0 ≤ (if jsMod x 12 < 0 then jsMod x 12 + 12 else jsMod x 12)
    ∧ (if jsMod x 12 < 0 then jsMod x 12 + 12 else jsMod x 12) < 12 := by
  have h := jsMod_bounds x
  split <;> omega

theorem pcToSemitone_bounds (s : String) :
    0 ≤ pcToSemitone s ∧ pcToSemitone s < 12 := by
  unfold pcToSemitone
  exact wrap_jsMod_bounds _

/-- C8: `signedSemitoneDiff(a, b)` always lies in `[-6, 5]`; it equals the
raw mod-12 distance `(semitoneOf b - semitoneOf a) mod 12`, lowered by 12 when
that raw distance exceeds 5; and `signedSemitoneDiff(a, a) = 0`. -/
theorem c8_signedSemitoneDiff_range (a b : String) :
    (-6 ≤ signedSemitoneDiff a b ∧ signedSemitoneDiff a b ≤ 5)
    ∧ signedSemitoneDiff a b =
        (if 5 < (pcToSemitone b - pcToSemitone a) % 12
         then (pcToSemitone b - pcToSemitone a) % 12 - 12
         else (pcToSemitone b - pcToSemitone a) % 12)
    ∧ signedSemitoneDiff a a = 0 := by
  have ha := pcToSemitone_bounds a
  have hb := pcToSemitone_bounds b
  unfold signedSemitoneDiff jsMod
  dsimp only
  split_ifs <;> omega

theorem applyShift_map (l : List ℤ) (s : ℤ) : applyShift l s = l.map (· + s) := by
  unfold applyShift
  split
  · rename_i h
    subst h
    simp
  · rfl

theorem applyShift_zero (l : List ℤ) : applyShift l 0 = l := by
  unfold applyShift
  simp

theorem parse_none_iff (env : Env) (s : String) :
    parseChordSymbol env s = none ↔ env.chordGet (splitSlash s).1 = none := by
  unfold parseChordSymbol
  cases hc : env.chordGet (splitSlash s).1 <;> simp [hc]

theorem rawMidis_ne_nil (env : Env) (p : Parsed) (oct : ℤ) (preset : PadVoicingPreset) (omitF : Option OmitFlags) :
    rawMidis env p oct preset omitF ≠ [] := by
  unfold rawMidis
  dsimp only
  split
  · simp
  · rename_i h
    intro hc
    exact h (by rw [hc]; rfl)

/-- C9: the Hold state machine is idempotent at the boundaries: starting a
Hold on an index that already has a live Hold changes nothing (in particular
the existing Hold's notes and schedule ids survive and no new transport
callbacks are created), and stopping a Hold on an index with no live Hold
changes nothing. (At most one Hold per index is structural: the state maps
each index to at most one `HoldEntry`, and the early return shows a second
press never overwrites it.) -/
theorem c9_hold_noop (st : AppState) (padModels : ℕ → Option PadModel) (perf : PerformanceSettings) (rng : ℕ → ℚ) (idx : ℕ) :
    ((st.activeHold idx).isSome → startHoldByIndex st padModels perf rng idx = st)
    ∧ (st.activeHold idx = none → stopHoldByIndex st idx = st) := by
  constructor
  · intro h
    cases hh : st.activeHold idx with
    | none => rw [hh] at h; simp at h
    | some q =>
      unfold startHoldByIndex
      cases padModels idx with
      | none => rfl
      | some p =>
        dsimp only
        split
        · rfl
        · rw [hh]
  · intro h
    unfold stopHoldByIndex
    rw [h]

theorem c9_hold_noop_witness :
    startHoldByIndex holdState0 padModels0 samplePerf zeroRng 0 = holdState0
    ∧ stopHoldByIndex holdState0 1 = holdState0 :=
  ⟨(c9_hold_noop holdState0 padModels0 samplePerf zeroRng 0).1 (by rfl),
   (c9_hold_noop holdState0 padModels0 samplePerf zeroRng 1).2 (by rfl)⟩

/-- C4 (evaluation at the failing input): under a theory lookup that
resolves the core `"CΔ7"` (per the lookup interface of spec §6), the
analyzer returns `"I7"`: the core contains the substring `"Δ7"`
(case-insensitively: after lowercasing it contains `"δ7"`), but `isMaj7`
compares the lowercased symbol against the literal `"Δ7"` with a capital
delta, which can never match, so the extension marker degrades to `"7"`
instead of the `"Δ7"` the claim requires. -/
theorem c4_romanize_delta7_eval :
    romanizeChord sampleEnv "CΔ7" { tonic := "C", mode := Mode.major } = "I7"
    ∧ containsSub ("CΔ7".data.map jsToLower) "δ7".data = true
    ∧ isMaj7 "CΔ7" = false := by
  refine ⟨by decide, by decide, by decide⟩

/-- C2: transposition is linear: for a fixed environment, symbol, register,
preset and omission flags, the midis produced with `transposeShift = shift`
are the midis produced with `transposeShift = 0` with `shift` added to each
entry. -/
theorem c2_transpose_linear (env : Env) (sym : String) (oct : ℤ) (preset : PadVoicingPreset) (shift : ℤ) (opts : VoicingOptions) (v v0 : VoicingResult)
    (h : buildPadVoicing env sym oct preset shift opts = some v)
    (h0 : buildPadVoicing env sym oct preset 0 opts = some v0) :
    v.midis = v0.midis.map (· + shift) := by
  unfold buildPadVoicing at h h0
  cases hp : parseChordSymbol env sym with
  | none =>
    rw [hp] at h
    exact absurd h (by simp)
  | some p =>
    rw [hp] at h h0
    dsimp only at h h0
    simp only [Option.some.injEq] at h h0
    subst h h0
    dsimp only
    rw [applyShift_zero, applyShift_map]

theorem c2_transpose_linear_witness :
    (VoicingResult.mk "C" PadVoicingPreset.PAD_TRIAD_BASS_35R [31, 71, 74, 79] ["31", "71", "74", "79"]).midis
      = (VoicingResult.mk "C" PadVoicingPreset.PAD_TRIAD_BASS_35R [24, 64, 67, 72] ["24", "64", "67", "72"]).midis.map (· + 7) :=
  c2_transpose_linear sampleEnv "C" 4 PadVoicingPreset.PAD_TRIAD_BASS_35R 7 ⟨none⟩ _ _ (by decide) (by decide)

/-- C1: `buildPadVoicing` returns `none` exactly when the theory lookup
cannot resolve the slash-free core of the symbol; every produced result has
a non-empty midi list (the single-pitch fallback guarantees this even when a
preset yields no pitches) and a notes list of the same length. -/
theorem c1_buildPadVoicing_total (env : Env) (sym : String) (oct : ℤ) (preset : PadVoicingPreset) (shift : ℤ) (opts : VoicingOptions) :
    (buildPadVoicing env sym oct preset shift opts = none ↔ env.chordGet (splitSlash sym).1 = none)
    ∧ ∀ v, buildPadVoicing env sym oct preset shift opts = some v →
        v.midis ≠ [] ∧ v.notes.length = v.midis.length := by
  constructor
  · rw [← parse_none_iff]
    unfold buildPadVoicing
    cases parseChordSymbol env sym <;> simp
  · intro v h
    unfold buildPadVoicing at h
    cases hp : parseChordSymbol env sym with
    | none => rw [hp] at h; exact absurd h (by simp)
    | some p =>
      rw [hp] at h
      dsimp only at h
      simp only [Option.some.injEq] at h
      subst h
      constructor
      · dsimp only
        rw [applyShift_map]
        simp only [ne_eq, List.map_eq_nil_iff]
        exact rawMidis_ne_nil env p oct preset opts.omitF
      · dsimp only
        rw [List.length_map]

theorem c1_buildPadVoicing_total_witness :
    (VoicingResult.mk "C" PadVoicingPreset.PAD_TRIAD_BASS_35R [24, 64, 67, 72] ["24", "64", "67", "72"]).midis ≠ []
    ∧ (VoicingResult.mk "C" PadVoicingPreset.PAD_TRIAD_BASS_35R [24, 64, 67, 72] ["24", "64", "67", "72"]).notes.length
        = (VoicingResult.mk "C" PadVoicingPreset.PAD_TRIAD_BASS_35R [24, 64, 67, 72] ["24", "64", "67", "72"]).midis.length :=
  (c1_buildPadVoicing_total sampleEnv "C" 4 PadVoicingPreset.PAD_TRIAD_BASS_35R 0 ⟨none⟩).2 _ (by decide)

theorem sorted_jsSortInts (l : List ℤ) : List.Sorted (· ≤ ·) (jsSortInts l) :=
  List.sorted_insertionSort _ l

theorem perm_jsSortInts (l : List ℤ) : (jsSortInts l).Perm l :=
  List.perm_insertionSort _ l

/-- C5: drop-2 on a strictly ascending closed four-stack returns the
re-sorted set with the second-highest voice lowered an octave, and any list
whose length is not exactly 4 is returned unchanged by every drop kind. -/
theorem c5_applyDrop (c0 c1 c2 c3 : ℤ) (h01 : c0 < c1) (h12 : c1 < c2) (h23 : c2 < c3)
    (l : List ℤ) (kind : DropKind) (hl : l.length ≠ 4) :
    (applyDrop [c0, c1, c2, c3] DropKind.drop2).Perm [c0, c1, c2 - 12, c3]
    ∧ List.Sorted (· ≤ ·) (applyDrop [c0, c1, c2, c3] DropKind.drop2)
    ∧ applyDrop l kind = l := by
  refine ⟨perm_jsSortInts _, sorted_jsSortInts _, ?_⟩
  unfold applyDrop
  split
  · rename_i v1 v2 v3 v4
    simp at hl
  · rfl

theorem c5_applyDrop_witness :
    (applyDrop [60, 64, 67, 71] DropKind.drop2).Perm [60, 64, 67 - 12, 71]
    ∧ List.Sorted (· ≤ ·) (applyDrop [60, 64, 67, 71] DropKind.drop2)
    ∧ applyDrop [1, 2, 3] DropKind.drop3 = [1, 2, 3] :=
  c5_applyDrop 60 64 67 71 (by decide) (by decide) (by decide) [1, 2, 3] DropKind.drop3 (by decide)

theorem clampLowMud_sorted (m : List ℤ) (t : ℤ) : List.Sorted (· ≤ ·) (clampLowMud m t) := by
  unfold clampLowMud
  split
  · rename_i h
    cases m with
    | nil => exact List.sorted_nil
    | cons a tl =>
      cases tl with
      | nil => exact List.sorted_singleton a
      | cons b tl2 => simp [List.length_cons] at h; omega
  · dsimp only
    split
    · exact sorted_jsSortInts m
    · rename_i hlen hlt
      cases hs : jsSortInts m with
      | nil => exact List.sorted_nil
      | cons b rest =>
        have hsorted : List.Sorted (· ≤ ·) (b :: rest) := by
          rw [← hs]; exact sorted_jsSortInts m
        rw [hs] at hlt
        rw [List.sorted_cons] at hsorted
        have hd : 0 ≤ 12 * ((t - minOf ((b :: rest).drop ((b :: rest).length - 3)) + 11) / 12) := by
          omega
        rw [List.sorted_cons]
        constructor
        · intro y hy
          obtain ⟨x, hx, rfl⟩ := List.mem_map.1 hy
          have := hsorted.1 x hx
          omega
        · exact List.Pairwise.map _ (fun a b hab => by omega) hsorted.2

theorem presetMidis_sorted (env : Env) (p : Parsed) (oct : ℤ) (preset : PadVoicingPreset) (omitF : Option OmitFlags) :
    List.Sorted (· ≤ ·) (presetMidis env p oct preset omitF) := by
  cases preset <;> exact clampLowMud_sorted _ _

theorem rawMidis_sorted (env : Env) (p : Parsed) (oct : ℤ) (preset : PadVoicingPreset) (omitF : Option OmitFlags) :
    List.Sorted (· ≤ ·) (rawMidis env p oct preset omitF) := by
  unfold rawMidis
  dsimp only
  split
  · exact List.sorted_singleton _
  · exact presetMidis_sorted env p oct preset omitF

/-- C10 (implicit): every midi list produced by `buildPadVoicing` is sorted
in nondecreasing order — the crowding post-process returns a sorted copy in
all its branches, every drop re-sorts, the fallback is a singleton, and the
uniform transposition preserves order — so the voice order handed to the
arpeggio `"1357"` pattern is always ascending by pitch. -/
theorem c10_buildPadVoicing_sorted (env : Env) (sym : String) (oct : ℤ) (preset : PadVoicingPreset) (shift : ℤ) (opts : VoicingOptions) (v : VoicingResult)
    (h : buildPadVoicing env sym oct preset shift opts = some v) :
    List.Sorted (· ≤ ·) v.midis := by
  unfold buildPadVoicing at h
  cases hp : parseChordSymbol env sym with
  | none => rw [hp] at h; exact absurd h (by simp)
  | some p =>
    rw [hp] at h
    dsimp only at h
    simp only [Option.some.injEq] at h
    subst h
    dsimp only
    rw [applyShift_map]
    exact List.Pairwise.map _ (fun a b hab => by omega) (rawMidis_sorted env p oct preset opts.omitF)

theorem c10_buildPadVoicing_sorted_witness :
    List.Sorted (· ≤ ·) (VoicingResult.mk "C" PadVoicingPreset.PAD_TRIAD_BASS_35R [24, 64, 67, 72] ["24", "64", "67", "72"]).midis :=
  c10_buildPadVoicing_sorted sampleEnv "C" 4 PadVoicingPreset.PAD_TRIAD_BASS_35R 0 ⟨none⟩ _ (by decide)

theorem foldl_min_spec : ∀ (t : List ℤ) (a : ℤ),
    (t.foldl min a = a ∨ t.foldl min a ∈ t) ∧ t.foldl min a ≤ a ∧ ∀ x ∈ t, t.foldl min a ≤ x
  | [], a => by simp
  | c :: cs, a => by
    have h := foldl_min_spec cs (min a c)
    simp only [List.foldl_cons]
    refine ⟨?_, ?_, ?_⟩
    · rcases h.1 with h1 | h1
      · rcases le_total a c with hac | hac
        · left; rw [h1, min_eq_left hac]
        · right; rw [h1, min_eq_right hac]; exact List.mem_cons_self c cs
      · right; exact List.mem_cons_of_mem c h1
    · exact le_trans h.2.1 (min_le_left a c)
    · intro x hx
      rcases List.mem_cons.1 hx with rfl | hx
      · exact le_trans h.2.1 (min_le_right a x)
      · exact h.2.2 x hx

theorem minOf_mem (l : List ℤ) (h : l ≠ []) : minOf l ∈ l := by
  cases l with
  | nil => exact absurd rfl h
  | cons a t =>
    show t.foldl min a ∈ a :: t
    rcases (foldl_min_spec t a).1 with h1 | h1
    · rw [h1]; exact List.mem_cons_self a t
    · exact List.mem_cons_of_mem a h1

theorem minOf_le (l : List ℤ) : ∀ x ∈ l, minOf l ≤ x := by
  cases l with
  | nil => intro x hx; simp at hx
  | cons a t =>
    intro x hx
    rcases List.mem_cons.1 hx with rfl | hx
    · exact (foldl_min_spec t x).2.1
    · exact (foldl_min_spec t a).2.2 x hx

theorem minOf_perm {l₁ l₂ : List ℤ} (h : l₁.Perm l₂) : minOf l₁ = minOf l₂ := by
  cases l₁ with
  | nil =>
    have h2 : l₂ = [] := h.symm.eq_nil
    rw [h2]
  | cons a t =>
    have hne1 : a :: t ≠ ([] : List ℤ) := by simp
    have hne2 : l₂ ≠ [] := by
      intro hc
      rw [hc] at h
      exact hne1 h.eq_nil
    apply le_antisymm
    · exact minOf_le (a :: t) _ (h.mem_iff.2 (minOf_mem l₂ hne2))
    · exact minOf_le l₂ _ (h.mem_iff.1 (minOf_mem (a :: t) hne1))

theorem foldl_min_eq (b : ℤ) : ∀ (l : List ℤ), (∀ x ∈ l, b ≤ x) → l.foldl min b = b
  | [], _ => rfl
  | c :: cs, h => by
    simp only [List.foldl_cons]
    rw [min_eq_left (h c (List.mem_cons_self c cs))]
    exact foldl_min_eq b cs (fun x hx => h x (List.mem_cons_of_mem c hx))

theorem minOf_cons_eq (b : ℤ) (l : List ℤ) (h : ∀ x ∈ l, b ≤ x) : minOf (b :: l) = b :=
  foldl_min_eq b l h

/-- C6: the low-register crowding post-process never changes the minimum
(bass) pitch of the list, and when the minimum of the three highest sorted
pitches is below the floor, the output is the sorted list with every pitch
except the lowest raised by the smallest nonnegative multiple of 12 that
brings that minimum to or above the floor. -/
theorem c6_clampLowMud_frame :
    (∀ (m : List ℤ) (minTop : ℤ), minOf (clampLowMud m minTop) = minOf m)
    ∧ ∀ (m : List ℤ) (minTop topMin delta b : ℤ) (rest : List ℤ),
        2 ≤ m.length →
        jsSortInts m = b :: rest →
        topMin = minOf ((b :: rest).drop ((b :: rest).length - 3)) →
        topMin < minTop →
        delta = 12 * ((minTop - topMin + 11) / 12) →
        clampLowMud m minTop = b :: rest.map (· + delta)
        ∧ minTop ≤ topMin + delta
        ∧ ∀ k : ℤ, 0 ≤ k → 12 ∣ k → minTop ≤ topMin + k → delta ≤ k := by
  constructor
  · intro m minTop
    unfold clampLowMud
    split
    · rfl
    · rename_i hlen
      dsimp only
      split
      · exact minOf_perm (perm_jsSortInts m)
      · rename_i hlt
        cases hs : jsSortInts m with
        | nil =>
          have hm : m = [] := by
            have hp := perm_jsSortInts m
            rw [hs] at hp
            exact hp.symm.eq_nil
          rw [hm] at hlen
          simp at hlen
        | cons b rest =>
          rw [hs] at hlt
          have hsorted : List.Sorted (· ≤ ·) (b :: rest) := by
            rw [← hs]; exact sorted_jsSortInts m
          rw [List.sorted_cons] at hsorted
          have hperm : minOf m = minOf (b :: rest) := by
            have := minOf_perm (perm_jsSortInts m)
            rw [hs] at this
            exact this.symm
          have hδ : 0 ≤ 12 * ((minTop - minOf ((b :: rest).drop ((b :: rest).length - 3)) + 11) / 12) := by
            omega
          rw [hperm, minOf_cons_eq b rest hsorted.1]
          apply minOf_cons_eq
          intro y hy
          obtain ⟨x, hx, rfl⟩ := List.mem_map.1 hy
          have := hsorted.1 x hx
          omega
  · intro m minTop topMin delta b rest hlen hs htop hlt hδ
    subst htop
    subst hδ
    refine ⟨?_, by omega, fun k hk0 hk12 hkge => by omega⟩
    unfold clampLowMud
    rw [if_neg (by omega : ¬ m.length < 2)]
    dsimp only
    rw [hs]
    rw [if_neg (by omega : ¬ minTop ≤ minOf ((b :: rest).drop ((b :: rest).length - 3)))]

theorem c6_clampLowMud_frame_witness :
    minOf (clampLowMud [40, 41, 42, 43] 55) = minOf [40, 41, 42, 43]
    ∧ clampLowMud [40, 41, 42, 43] 55 = 40 :: [41, 42, 43].map (· + 24) :=
  ⟨c6_clampLowMud_frame.1 [40, 41, 42, 43] 55,
   (c6_clampLowMud_frame.2 [40, 41, 42, 43] 55 41 24 40 [41, 42, 43]
     (by decide) (by decide) (by decide) (by decide) (by decide)).1⟩

theorem coe_set_add (l : List Item) (i : ℕ) (b a : Item) (h : l.get? i = some a) :
    ((l.set i b : List Item) : Multiset Item) + {a} = (l : Multiset Item) + {b} := by
  induction l generalizing i with
  | nil => simp at h
  | cons c cs ih =>
    cases i with
    | zero =>
      have hc : c = a := by simpa using h
      subst hc
      show ((b :: cs : List Item) : Multiset Item) + {c} = _
      rw [← Multiset.cons_coe, ← Multiset.cons_coe, ← Multiset.singleton_add, ← Multiset.singleton_add]
      abel
    | succ n =>
      have hn : cs.get? n = some a := by simpa using h
      show ((c :: cs.set n b : List Item) : Multiset Item) + {a} = _
      rw [← Multiset.cons_coe, ← Multiset.cons_coe, Multiset.cons_add, Multiset.cons_add, ih n hn]

theorem swapAt_perm (l : List Item) (i j : ℕ) : (swapAt l i j).Perm l := by
  unfold swapAt
  split
  · rename_i a b h1 h2
    rw [← Multiset.coe_eq_coe]
    have h2' : (l.set i b).get? j = some b := by
      rcases eq_or_ne i j with rfl | hij
      · rw [List.get?_set_eq, h1]
        rfl
      · rw [List.get?_set_ne b l hij]
        exact h2
    have e1 := coe_set_add l i b a h1
    have e2 := coe_set_add (l.set i b) j a b h2'
    have e3 : (((l.set i b).set j a : List Item) : Multiset Item) + {b} = (l : Multiset Item) + {b} := by
      rw [e2, e1]
    exact add_right_cancel e3
  · exact List.Perm.refl l

theorem shuffleGo_perm : ∀ (s : RandGen) (l : List Item) (i : ℕ), (shuffleGo s l i).1.Perm l
  | _, l, 0 => List.Perm.refl l
  | s, l, i + 1 => by
    unfold shuffleGo
    exact (shuffleGo_perm _ _ i).trans (swapAt_perm l (i + 1) _)

theorem sortByMidi_perm (items : List Item) : (sortByMidi items).Perm items :=
  List.perm_insertionSort _ items

theorem orderForArp_perm (items : List Item) (pat : ArpPattern) (s : RandGen) :
    (orderForArp items pat s).1.Perm items := by
  cases pat with
  | p1357 => exact List.Perm.refl items
  | down => exact (List.reverse_perm _).trans (sortByMidi_perm items)
  | random => exact (shuffleGo_perm _ _ _).trans (sortByMidi_perm items)
  | up => exact sortByMidi_perm items

theorem orderForChord_perm (items : List Item) (dir : StrumDirection) (s : RandGen) :
    (orderForChord items dir s).1.Perm items := by
  cases dir with
  | down => exact (List.reverse_perm _).trans (sortByMidi_perm items)
  | random => exact (shuffleGo_perm _ _ _).trans (sortByMidi_perm items)
  | up => exact sortByMidi_perm items

theorem playOrder_perm (p : NormalizedPerf) (items : List Item) (s : RandGen) :
    ((if p.playMode == PlayMode.arp then orderForArp items p.arpPattern s
      else orderForChord items p.direction s).1).Perm items := by
  split
  · exact orderForArp_perm items p.arpPattern s
  · exact orderForChord_perm items p.direction s

theorem mkItems_isTop : ∀ (top : ℤ) (ns : List String) (ms : List ℤ) (i : ℕ),
    ∀ it ∈ mkItems top ns ms i, it.isTop = (it.midi == top)
  | _, [], _, _ => by intro it hit; simp [mkItems] at hit
  | _, _ :: _, [], _ => by intro it hit; simp [mkItems] at hit
  | top, n :: ns, md :: ms, i => by
    intro it hit
    rw [mkItems] at hit
    rcases List.mem_cons.1 hit with rfl | h
    · rfl
    · exact mkItems_isTop top ns ms (i + 1) it h

theorem mkItems_countP : ∀ (top : ℤ) (ns : List String) (ms : List ℤ) (i : ℕ),
    ns.length = ms.length →
    (mkItems top ns ms i).countP (fun it => it.isTop) = ms.countP (fun md => md == top)
  | _, [], [], _, _ => rfl
  | _, [], _ :: _, _, h => by simp at h
  | _, _ :: _, [], _, h => by simp at h
  | top, n :: ns, md :: ms, i, h => by
    rw [mkItems, List.countP_cons, List.countP_cons,
      mkItems_countP top ns ms (i + 1) (by simpa using h)]

theorem mkItems_length : ∀ (top : ℤ) (ns : List String) (ms : List ℤ) (i : ℕ),
    ns.length = ms.length → (mkItems top ns ms i).length = ms.length
  | _, [], [], _, _ => rfl
  | _, [], _ :: _, _, h => by simp at h
  | _, _ :: _, [], _, h => by simp at h
  | top, n :: ns, md :: ms, i, h => by
    rw [mkItems, List.length_cons, List.length_cons,
      mkItems_length top ns ms (i + 1) (by simpa using h)]

theorem mkItems_map_pair : ∀ (top : ℤ) (ns : List String) (ms : List ℤ) (i : ℕ),
    (mkItems top ns ms i).map (fun it => (it.note, it.midi)) = ns.zip ms
  | _, [], _, _ => by simp [mkItems]
  | _, _ :: _, [], _ => by simp [mkItems]
  | top, n :: ns, md :: ms, i => by
    rw [mkItems, List.map_cons, mkItems_map_pair top ns ms (i + 1)]
    rfl

theorem emitEvents_mem_fields (p : NormalizedPerf) (delays : List ℚ) (a b : ℚ) :
    ∀ (l : List Item) (s : RandGen) (idx : ℕ),
      ∀ e ∈ emitEvents p delays a b s idx l,
        ∃ it ∈ l, it.note = e.note ∧ it.midi = e.midi ∧ it.isTop = e.isTop := by
  intro l
  induction l with
  | nil => intro s idx e he; simp [emitEvents] at he
  | cons it rest ih =>
    intro s idx e he
    rw [emitEvents] at he
    rcases List.mem_cons.1 he with rfl | h
    · exact ⟨it, List.mem_cons_self it rest, rfl, rfl, rfl⟩
    · obtain ⟨it2, hit2, hf⟩ := ih _ _ e h
      exact ⟨it2, List.mem_cons_of_mem it hit2, hf⟩

theorem emitEvents_countP_isTop (p : NormalizedPerf) (delays : List ℚ) (a b : ℚ) :
    ∀ (l : List Item) (s : RandGen) (idx : ℕ),
      (emitEvents p delays a b s idx l).countP (fun e => e.isTop) = l.countP (fun it => it.isTop) := by
  intro l
  induction l with
  | nil => intro s idx; rfl
  | cons it rest ih =>
    intro s idx
    simp only [emitEvents, List.countP_cons]
    rw [ih]

theorem emitEvents_length (p : NormalizedPerf) (delays : List ℚ) (a b : ℚ) :
    ∀ (l : List Item) (s : RandGen) (idx : ℕ),
      (emitEvents p delays a b s idx l).length = l.length := by
  intro l
  induction l with
  | nil => intro s idx; rfl
  | cons it rest ih =>
    intro s idx
    simp only [emitEvents, List.length_cons]
    rw [ih]

theorem emitEvents_map_pair (p : NormalizedPerf) (delays : List ℚ) (a b : ℚ) :
    ∀ (l : List Item) (s : RandGen) (idx : ℕ),
      (emitEvents p delays a b s idx l).map (fun e => (e.note, e.midi))
        = l.map (fun it => (it.note, it.midi)) := by
  intro l
  induction l with
  | nil => intro s idx; rfl
  | cons it rest ih =>
    intro s idx
    simp only [emitEvents, List.map_cons]
    rw [ih]

theorem emitEvents_map_delay (p : NormalizedPerf) (hj : p.timingJitterMs = 0) (delays : List ℚ) (a b : ℚ) :
    ∀ (l : List Item) (s : RandGen) (idx : ℕ),
      (emitEvents p delays a b s idx l).map (fun e => e.delayMs)
        = (List.range l.length).map (fun i => max 0 (delays.getD (idx + i) 0)) := by
  intro l
  induction l with
  | nil => intro s idx; rfl
  | cons it rest ih =>
    intro s idx
    simp only [emitEvents, List.map_cons, List.length_cons, List.range_succ_eq_map, List.map_map]
    rw [hj]
    simp only [lt_self_iff_false, if_false]
    rw [ih]
    congr 1
    apply List.map_congr_left
    intro i hi
    show max 0 (delays.getD (idx + 1 + i) 0) = max 0 (delays.getD (idx + (i + 1)) 0)
    have hadd : idx + 1 + i = idx + (i + 1) := by omega
    rw [hadd]

theorem foldl_max_mem : ∀ (t : List ℤ) (a : ℤ), t.foldl max a = a ∨ t.foldl max a ∈ t
  | [], _ => Or.inl rfl
  | c :: cs, a => by
    simp only [List.foldl_cons]
    rcases foldl_max_mem cs (max a c) with h1 | h1
    · rcases le_total a c with hac | hac
      · right; rw [h1, max_eq_right hac]; exact List.mem_cons_self c cs
      · left; rw [h1, max_eq_left hac]
    · right; exact List.mem_cons_of_mem c h1

theorem maxOf_mem (l : List ℤ) (h : l ≠ []) : maxOf l ∈ l := by
  cases l with
  | nil => exact absurd rfl h
  | cons a t =>
    show t.foldl max a ∈ a :: t
    rcases foldl_max_mem t a with h1 | h1
    · rw [h1]; exact List.mem_cons_self a t
    · exact List.mem_cons_of_mem a h1

theorem buildNoteEvents_guard (notes : List String) (midis : List ℤ)
    (hne : notes ≠ []) (hlen : notes.length = midis.length) :
    ¬ (notes.length = 0 ∨ notes.length ≠ midis.length) := by
  push_neg
  exact ⟨fun hc => hne (List.length_eq_zero.1 hc), hlen⟩

theorem c3core (p : NormalizedPerf) (delays : List ℚ) (a b : ℚ) (top : ℤ)
    (ns : List String) (ms : List ℤ) (po : List Item × RandGen)
    (hperm : po.1.Perm (mkItems top ns ms 0)) (hlen : ns.length = ms.length) :
    (∀ e ∈ emitEvents p delays a b po.2 0 po.1, e.isTop = (e.midi == top))
    ∧ (emitEvents p delays a b po.2 0 po.1).countP (fun e => e.isTop)
        = ms.countP (fun md => md == top)
    ∧ (emitEvents p delays a b po.2 0 po.1).length = ms.length := by
  refine ⟨?_, ?_, ?_⟩
  · intro e he
    obtain ⟨it, hit, h3, h4, h5⟩ := emitEvents_mem_fields p delays a b po.1 po.2 0 e he
    have hit2 : it ∈ mkItems top ns ms 0 := hperm.mem_iff.1 hit
    have hTop := mkItems_isTop top ns ms 0 it hit2
    rw [← h5, hTop, h4]
  · rw [emitEvents_countP_isTop, hperm.countP_eq, mkItems_countP top ns ms 0 hlen]
  · rw [emitEvents_length, hperm.length_eq, mkItems_length top ns ms 0 hlen]

/-- C3 (amended): in every non-empty, length-matched `buildNoteEvents` call,
an output event has `isTop = true` exactly when its pitch equals the maximum
of the caller-supplied midis, the number of flagged events equals the number
of occurrences of that maximum (so several events are flagged when notes tie
at the maximum), and at least one occurrence exists. -/
theorem c3_isTop_flags (rng : ℕ → ℚ) (notes : List String) (midis : List ℤ)
    (perf : PerformanceSettings) (oneShot : ℚ)
    (hne : notes ≠ []) (hlen : notes.length = midis.length) :
    (∀ e ∈ buildNoteEvents rng notes midis perf oneShot, e.isTop = (e.midi == maxOf midis))
    ∧ (buildNoteEvents rng notes midis perf oneShot).countP (fun e => e.isTop)
        = midis.count (maxOf midis)
    ∧ (buildNoteEvents rng notes midis perf oneShot).length = midis.length
    ∧ 0 < midis.count (maxOf midis) := by
  have hg := buildNoteEvents_guard notes midis hne hlen
  have hmne : midis ≠ [] := by
    intro hc
    subst hc
    simp only [List.length_nil] at hlen
    exact hne (List.length_eq_zero.1 hlen)
  have hcount : 0 < midis.count (maxOf midis) :=
    List.count_pos_iff.2 (maxOf_mem midis hmne)
  rw [List.count_eq_countP]
  rw [List.count_eq_countP] at hcount
  unfold buildNoteEvents
  rw [if_neg hg]
  dsimp only
  refine ⟨?_, ?_, ?_, hcount⟩
  · exact (c3core _ _ _ _ _ notes midis _ (playOrder_perm _ _ _) hlen).1
  · exact (c3core _ _ _ _ _ notes midis _ (playOrder_perm _ _ _) hlen).2.1
  · exact (c3core _ _ _ _ _ notes midis _ (playOrder_perm _ _ _) hlen).2.2

/-- C3 counterexample: with two notes tied at the maximum pitch, both output
events carry `isTop = true`, so it is false that exactly one event (the first
occurrence of the maximum) is flagged. -/
theorem c3_isTop_all_ties_counterexample :
    (buildNoteEvents zeroRng ["C4", "C4"] [60, 60] samplePerf 0.85).countP (fun e => e.isTop) = 2
    ∧ ¬ ((buildNoteEvents zeroRng ["C4", "C4"] [60, 60] samplePerf 0.85).countP (fun e => e.isTop) = 1) := by
  refine ⟨by decide, by decide⟩

theorem c3_isTop_flags_witness :
    (buildNoteEvents zeroRng ["x", "y"] [60, 64] samplePerf 0.85).countP (fun e => e.isTop)
      = ([60, 64] : List ℤ).count (maxOf [60, 64]) :=
  (c3_isTop_flags zeroRng ["x", "y"] [60, 64] samplePerf 0.85 (by decide) (by decide)).2.1

theorem getD_range_map (g : ℕ → ℚ) (n i : ℕ) (h : i < n) :
    ((List.range n).map g).getD i 0 = g i := by
  rw [List.getD_eq_getElem?_getD, List.getElem?_map, List.getElem?_range h]
  rfl

/-- C7: in arpeggio mode with pattern `"1357"`, the output order is exactly
the caller-supplied input order (no re-sort by pitch), and with zero timing
jitter the `i`-th event's delay is `i * arpStepMs` (stated for step values at
or above the 10 ms normalization floor, so the effective step equals the
caller's). -/
theorem c7_arp1357_order_delays (rng : ℕ → ℚ) (notes : List String) (midis : List ℤ)
    (perf : PerformanceSettings) (oneShot : ℚ)
    (hne : notes ≠ []) (hlen : notes.length = midis.length)
    (hmode : perf.playMode = PlayMode.arp) (hpat : perf.arpPattern = ArpPattern.p1357)
    (hjit : perf.timingJitterMs = 0) (hstep : 10 ≤ perf.arpStepMs) :
    (buildNoteEvents rng notes midis perf oneShot).map (fun e => (e.note, e.midi)) = notes.zip midis
    ∧ (buildNoteEvents rng notes midis perf oneShot).map (fun e => e.delayMs)
        = (List.range notes.length).map (fun i : ℕ => (i : ℚ) * perf.arpStepMs) := by
  have hg := buildNoteEvents_guard notes midis hne hlen
  have hm : (normalizePerf perf).playMode = PlayMode.arp := hmode
  have hp : (normalizePerf perf).arpPattern = ArpPattern.p1357 := hpat
  have hj : (normalizePerf perf).timingJitterMs = 0 := by
    show max 0 perf.timingJitterMs = 0
    rw [hjit]
    exact max_self 0
  have hs : (normalizePerf perf).arpStepMs = perf.arpStepMs := by
    show max 10 perf.arpStepMs = perf.arpStepMs
    exact max_eq_right hstep
  have hcond : ((normalizePerf perf).playMode == PlayMode.arp) = true := by
    rw [hm]
    rfl
  unfold buildNoteEvents
  rw [if_neg hg]
  dsimp only
  rw [if_pos hcond, if_pos hcond, if_pos hcond, hp]
  dsimp only [orderForArp]
  constructor
  · rw [emitEvents_map_pair, mkItems_map_pair]
  · rw [emitEvents_map_delay _ hj, mkItems_length (maxOf midis) notes midis 0 hlen, ← hlen]
    apply List.map_congr_left
    intro i hi
    have hin : i < notes.length := List.mem_range.1 hi
    rw [Nat.zero_add, getD_range_map _ _ _ hin, hs]
    apply max_eq_right
    apply mul_nonneg (Nat.cast_nonneg i)
    exact le_trans (by norm_num) hstep

theorem c7_arp1357_order_delays_witness :
    (buildNoteEvents zeroRng ["a", "b", "c", "d"] [60, 64, 67, 71] samplePerfArp 0.85).map (fun e => (e.note, e.midi))
      = [("a", 60), ("b", 64), ("c", 67), ("d", 71)]
    ∧ (buildNoteEvents zeroRng ["a", "b", "c", "d"] [60, 64, 67, 71] samplePerfArp 0.85).map (fun e => e.delayMs)
      = [0, 90, 180, 270] := by
  have h := c7_arp1357_order_delays zeroRng ["a", "b", "c", "d"] [60, 64, 67, 71] samplePerfArp 0.85
    (by decide) (by decide) rfl rfl rfl (by norm_num [samplePerfArp, samplePerf])
  refine ⟨?_, ?_⟩
  · rw [h.1]
    rfl
  · rw [h.2]
    norm_num [samplePerfArp, samplePerf, List.range_succ]

end ChordPad
